import Mathlib

/-!
Verification of the Adel cooperative runtime (src/adel.h).

Shallow embedding: the activation record struct, the task-tree stack, the
abegin/aend dispatcher, and each combinator macro are translated into
executable Lean definitions, and the specification's claims are settled
as theorems about those definitions.
-/

namespace Adel

/-- Task status, from `class adel` (enum ANONE, ADONE, ACONT, AYIELD). -/
inductive adel where
  | ANONE
  | ADONE
  | ACONT
  | AYIELD
deriving DecidableEq, Repr

/-- adel::done() is m_status == ADONE. -/
def adel.done (s : adel) : Bool :=
  match s with
  | .ADONE => true
  | _ => false

/-- adel::cont() is m_status == ACONT. -/
def adel.cont (s : adel) : Bool :=
  match s with
  | .ACONT => true
  | _ => false

/-- adel::yield() is m_status == AYIELD. -/
def adel.yield (s : adel) : Bool :=
  match s with
  | .AYIELD => true
  | _ => false

/-- adel::notdone() is m_status == ACONT or m_status == AYIELD. -/
def adel.notdone (s : adel) : Bool :=
  s.cont || s.yield

/-- ADEL_FINALLY, the 16-bit sentinel marking a completed task. -/
def ADEL_FINALLY : Nat := 0xFFFF

/-- Modulus of the 32-bit millisecond clock (uint32_t arithmetic). -/
def U32 : Nat := 4294967296

/-- Activation record: struct AdelAR (pc, wait, val, condition) together
with the user-declared persistent locals of the task's LocalAdelAR
extension, modelled as a list of machine words. -/
structure AdelAR where
  pc : Nat
  wait : Nat
  val : Nat
  condition : Bool
  locals : List Nat
deriving DecidableEq, Repr

/-- The task-tree stack: slot index to frame pointer (none = null). -/
def Stack : Type := Nat → Option AdelAR

/-- achild(c) = (a_my_index << 1) + c. -/
def achild (myIndex c : Nat) : Nat := myIndex * 2 + c

/-- Slot of acallerar: (a_my_index - 1) >> 1. -/
def acallerIdx (i : Nat) : Nat := (i - 1) / 2

/-- ainit(c): if the frame at slot c exists, set its pc to 0; a null slot
is left untouched. -/
def ainit (c : Nat) (s : Stack) : Stack :=
  fun i => if i = c then (s c).map (fun ar => { ar with pc := 0 }) else s i

/-- AdelRuntime::init_ar: calloc a zero-filled frame of the caller's size
(here: number of persistent locals). -/
def init_ar (nlocals : Nat) : AdelAR :=
  { pc := 0, wait := 0, val := 0, condition := false,
    locals := List.replicate nlocals 0 }

/-- One entry of a task built with abegin .. aend.  The body's suspension
points form a map from resume tokens to continuations; the dispatcher
switch jumps to the continuation matching my(pc).  The aend epilogue is
reached when pc is ADEL_FINALLY (its case label is an empty statement
falling out of the switch) or when no case matches; it sets
my(pc) = ADEL_FINALLY and returns ADONE. -/
def runTask (cases : Nat → Option (AdelAR → AdelAR × adel)) (ar : AdelAR) :
    AdelAR × adel :=
  if ar.pc = ADEL_FINALLY then ({ ar with pc := ADEL_FINALLY }, adel.ADONE)
  else
    match cases ar.pc with
    | some k => k ar
    | none => ({ ar with pc := ADEL_FINALLY }, adel.ADONE)

/-- The suspension test shared by adelay and aforatmost:
millis() < my(wait), a plain uint32 comparison. -/
def deadlineKeepsWaiting (w n : Nat) : Bool := n % U32 < w

/-- adelay(t), statements before the case label: record the resume token
and the deadline my(wait) = millis() + t (uint32 arithmetic), reading the
clock at n0. -/
def adelayEnter (k t n0 : Nat) (ar : AdelAR) : AdelAR :=
  { ar with pc := k, wait := (n0 + t) % U32 }

/-- adelay at its case label, clock at n: return ACONT while
millis() < my(wait); otherwise fall through (none). -/
def adelayAtToken (n : Nat) (ar : AdelAR) : Option adel :=
  if deadlineKeepsWaiting ar.wait n then some adel.ACONT else none

/-- The pass that first executes adelay(t): set token and deadline at
clock n0, then fall through the label and run the test at clock n1. -/
def adelayFirstPass (k t n0 n1 : Nat) (ar : AdelAR) : AdelAR × Option adel :=
  let ar' := adelayEnter k t n0 ar
  (ar', adelayAtToken n1 ar')

/-- Modelled from the spec: the deadline-not-yet-reached test by unsigned
subtraction, i.e. the u32 difference wait - now, interpreted as a signed
32-bit quantity, is positive. -/
def specNotReached (w n : Nat) : Bool :=
  decide (0 < (w + U32 - n % U32) % U32) &&
  decide ((w + U32 - n % U32) % U32 < 2 ^ 31)

/-- Outcome of one evaluation of a two-stage branching combinator:
either the pass returns ACONT to the driver, or control falls through
into the if-statement stage with the given guard value. -/
inductive BranchOutcome where
  | suspend
  | branch : Bool → BranchOutcome
deriving DecidableEq, Repr

/-- aforatmost(t, f) at its case label: the child was called with status
fs and the clock reads n.  If f is not done and the deadline is ahead,
return ACONT; otherwise record my(condition) = f_status.done() and fall
through into the second-stage label, whose if-guard is !my(condition).
Note: the frame's pc is not written here. -/
def aforatmostStep (fs : adel) (n : Nat) (ar : AdelAR) :
    AdelAR × BranchOutcome :=
  if fs.notdone && deadlineKeepsWaiting ar.wait n then
    (ar, BranchOutcome.suspend)
  else
    (({ ar with condition := fs.done } : AdelAR), BranchOutcome.branch (!fs.done))

/-- aforatmost(t, f), statements before the case label: record the resume
token, reinitialize child 1, and set my(wait) = millis() + t. -/
def aforatmostEnter (k t n0 myIndex : Nat) (ar : AdelAR) (s : Stack) :
    AdelAR × Stack :=
  ({ ar with pc := k, wait := (n0 + t) % U32 }, ainit (achild myIndex 1) s)

/-- auntileither(f, g) at token k: children called with statuses fs, gs.
If both are not done, return ACONT; otherwise record
my(condition) = f_status.done(), set my(pc) = k + 1, and fall through
into the second-stage label, whose if-guard is my(condition). -/
def auntileitherStep (k : Nat) (fs gs : adel) (ar : AdelAR) :
    AdelAR × BranchOutcome :=
  if fs.notdone && gs.notdone then
    (ar, BranchOutcome.suspend)
  else
    (({ ar with condition := fs.done, pc := k + 1 } : AdelAR),
     BranchOutcome.branch fs.done)

/-- alternate(f, g), statements before the case label: record the token,
reinitialize both children, and set my(condition) = true (f's turn). -/
def alternateEnter (k myIndex : Nat) (ar : AdelAR) (s : Stack) :
    AdelAR × Stack :=
  ({ ar with pc := k, condition := true },
   ainit (achild myIndex 2) (ainit (achild myIndex 1) s))

/-- alternate(f, g) at its case label.  The children are arbitrary state
machines f, g over states sf, sg.  Exactly the child whose turn it is
(my(condition) = true means f) is evaluated: on ACONT the combinator
returns ACONT with the turn unchanged, on AYIELD it flips my(condition)
and returns ACONT, otherwise it falls through (none). -/
def alternateStep {σ τ : Type} (f : σ → σ × adel) (g : τ → τ × adel)
    (ar : AdelAR) (sf : σ) (sg : τ) : (AdelAR × σ × τ) × Option adel :=
  if ar.condition then
    let p := f sf
    if p.2.cont then ((ar, p.1, sg), some adel.ACONT)
    else if p.2.yield then
      (({ ar with condition := false }, p.1, sg), some adel.ACONT)
    else ((ar, p.1, sg), none)
  else
    let q := g sg
    if q.2.cont then ((ar, sf, q.1), some adel.ACONT)
    else if q.2.yield then
      (({ ar with condition := true }, sf, q.1), some adel.ACONT)
    else ((ar, sf, q.1), none)

/-- afinish: set my(pc) = ADEL_FINALLY and return ACONT on this pass. -/
def afinishStep (ar : AdelAR) : AdelAR × adel :=
  ({ ar with pc := ADEL_FINALLY }, adel.ACONT)

/-- ayourturn(v) executed by the task at slot cur: record the resume
token k in its own frame, deposit v (a uint32) in acallerar's val, and
return AYIELD. -/
def ayourturnStep (cur k v : Nat) (s : Stack) : Stack × adel :=
  let s1 : Stack :=
    fun i => if i = cur then (s cur).map (fun ar => { ar with pc := k }) else s i
  let s2 : Stack :=
    fun i => if i = acallerIdx cur then
               (s1 (acallerIdx cur)).map (fun ar => { ar with val := v % U32 })
             else s1 i
  (s2, adel.AYIELD)

/-- amyturn read by the task at slot cur: acallerar's val. -/
def amyturnVal (cur : Nat) (s : Stack) : Option Nat :=
  (s (acallerIdx cur)).map AdelAR.val

/-- State of one aevery driver site: the static anexttime variable and
the site's task tree. -/
structure EveryState where
  nexttime : Nat
  stack : Stack

/-- First execution of an aevery(T, f) site at clock n0: the static
anexttime is set once, to millis() + T. -/
def aeveryInit (T n0 : Nat) (s : Stack) : EveryState :=
  { nexttime := (n0 + T) % U32, stack := s }

/-- One pass of aevery(T, f) with the clock at n: evaluate f at the root,
then reset slot 0 (ainit(0)) iff f is done and anexttime < millis().
The static anexttime is never written again. -/
def aeveryPass (f : Stack → Stack × adel) (n : Nat) (st : EveryState) :
    EveryState :=
  let p := f st.stack
  if p.2.done && decide (st.nexttime < n % U32) then
    { nexttime := st.nexttime, stack := ainit 0 p.1 }
  else
    { nexttime := st.nexttime, stack := p.1 }

/-- Concrete body map used in witnesses: token 0 moves to token 10. -/
def casesDemo : Nat → Option (AdelAR → AdelAR × adel) :=
  fun t => if t = 0 then some (fun a => ({ a with pc := 10 }, adel.ACONT)) else none

/-- A completed frame with nonzero scratch fields. -/
def arDoneDemo : AdelAR :=
  { pc := ADEL_FINALLY, wait := 3, val := 4, condition := true, locals := [7] }

/-- A small concrete stack: a live frame at slot 1, slot 2 empty. -/
def stackDemo : Stack :=
  fun i => if i = 1 then some { pc := 30, wait := 5, val := 6, condition := true,
                                locals := [8, 9] } else none

/-- A fresh all-zero frame. -/
def arZero : AdelAR :=
  { pc := 0, wait := 0, val := 0, condition := false, locals := [] }

/-- A frame parked on a wrapped deadline: wait = 5 written near the top of
the u32 clock. -/
def arWrapDemo : AdelAR :=
  { pc := 2520, wait := 5, val := 0, condition := false, locals := [] }

/-- A frame inside aforatmost at first-stage token 2960, deadline 50. -/
def arForDemo : AdelAR :=
  { pc := 2960, wait := 50, val := 0, condition := false, locals := [] }

/-- Child machine for alternate witnesses: increments and yields. -/
def altF : Nat → Nat × adel := fun n => (n + 1, adel.AYIELD)

/-- Child machine for alternate witnesses: doubles and suspends. -/
def altG : Nat → Nat × adel := fun n => (n * 2, adel.ACONT)

/-- A frame inside alternate on f's turn. -/
def arTurn : AdelAR :=
  { pc := 3740, wait := 0, val := 0, condition := true, locals := [] }

/-- The alternate combinator's own frame in the channel demo. -/
def arAltRoot : AdelAR :=
  { pc := 10, wait := 0, val := 0, condition := true, locals := [] }

/-- Stack for the alternate channel: alternate at slot 0, children at
slots 1 and 2; the child at slot 2 has own val 7. -/
def stackAltDemo : Stack :=
  fun i =>
    if i = 0 then some arAltRoot
    else if i = 1 then some arZero
    else if i = 2 then some { pc := 0, wait := 0, val := 7, condition := false, locals := [] }
    else none

/-- Root task model for the aevery trace: completes on every pass
(its epilogue sets pc to ADEL_FINALLY and returns ADONE). -/
def fDoneDemo : Stack → Stack × adel :=
  fun s =>
    (fun i => if i = 0 then (s 0).map (fun ar => { ar with pc := ADEL_FINALLY })
              else s i,
     adel.ADONE)

/-- Tree of the aevery trace: a root frame mid-run at token 40. -/
def everyStack0 : Stack :=
  fun i => if i = 0 then
             some { pc := 40, wait := 0, val := 0, condition := false, locals := [] }
           else none

/-- aevery(100, f) site first executed at millis() = 0. -/
def everySt0 : EveryState := aeveryInit 100 0 everyStack0

/-- State after a pass at millis() = 101 on which f completes. -/
def everySt1 : EveryState := aeveryPass fDoneDemo 101 everySt0

/-- State after a further pass at millis() = 102 on which f completes. -/
def everySt2 : EveryState := aeveryPass fDoneDemo 102 everySt1

end Adel

namespace Adel

/-- C1. Idempotent completion: once a task's frame pc equals ADEL_FINALLY,
any entry of the task (whatever its body's case map) returns ADONE at once
and leaves the frame entirely unchanged, so every subsequent pass does the
same: iterating the pass any number of times is the identity on the frame. -/
theorem task_idempotent_completion
    (cases : Nat → Option (AdelAR → AdelAR × adel)) (ar : AdelAR)
    (h : ar.pc = ADEL_FINALLY) :
    runTask cases ar = (ar, adel.ADONE) ∧
    ∀ n : Nat, (fun a => (runTask cases a).1)^[n] ar = ar := by
  have hfix : runTask cases ar = (ar, adel.ADONE) := by
    cases ar with
    | mk pc wait val condition locals =>
      simp only [runTask]
      simp_all
  refine ⟨hfix, fun n => Function.iterate_fixed ?_ n⟩
  simp [hfix]

/-- Witness for C1 at a concrete body and frame. -/
theorem task_idempotent_completion_witness :
    runTask casesDemo arDoneDemo = (arDoneDemo, adel.ADONE) :=
  (task_idempotent_completion casesDemo arDoneDemo rfl).1

/-- C10. ainit resets only pc: on an allocated slot it sets pc to 0 and
preserves wait, val, condition and all persistent locals; other slots are
untouched; on a never-allocated (null) slot it is a no-op; and the one
calloc allocation init_ar is the only all-zero frame source. -/
theorem ainit_resets_only_pc (s : Stack) (c : Nat) :
    (∀ ar : AdelAR, s c = some ar →
      ainit c s c = some { pc := 0, wait := ar.wait, val := ar.val,
                           condition := ar.condition, locals := ar.locals }) ∧
    (s c = none → ainit c s = s) ∧
    (∀ j : Nat, j ≠ c → ainit c s j = s j) ∧
    (∀ nlocals : Nat,
      (init_ar nlocals).pc = 0 ∧ (init_ar nlocals).wait = 0 ∧
      (init_ar nlocals).val = 0 ∧ (init_ar nlocals).condition = false ∧
      ∀ x ∈ (init_ar nlocals).locals, x = 0) := by
  refine ⟨?_, ?_, ?_, ?_⟩
  · intro ar h
    simp [ainit, h]
  · intro h
    funext i
    by_cases hi : i = c <;> simp [ainit, hi, h]
  · intro j hj
    simp [ainit, hj]
  · intro nlocals
    refine ⟨rfl, rfl, rfl, rfl, ?_⟩
    intro x hx
    simpa using List.eq_of_mem_replicate hx

/-- Witness for C10: ainit on the concrete stack resets slot 1's pc and
keeps its other fields, and is a no-op at the empty slot 2. -/
theorem ainit_resets_only_pc_witness :
    ainit 1 stackDemo 1 = some { pc := 0, wait := 5, val := 6, condition := true,
                                 locals := [8, 9] } ∧
    ainit 2 stackDemo = stackDemo :=
  ⟨(ainit_resets_only_pc stackDemo 1).1 _ rfl,
   (ainit_resets_only_pc stackDemo 2).2.1 rfl⟩

/-- C3, counterexample: with the stored deadline 5 (written near the top
of the u32 clock and wrapped) and the clock at 2^32 - 3, the unsigned
subtraction test says the deadline is 8 ms ahead, but the code's test
millis() < my(wait) is false, so neither adelay nor aforatmost keeps the
task suspended: the comparison is not by unsigned subtraction. -/
theorem deadline_compare_counterexample :
    specNotReached 5 (U32 - 3) = true ∧
    deadlineKeepsWaiting 5 (U32 - 3) = false ∧
    adelayAtToken (U32 - 3) arWrapDemo = none ∧
    (aforatmostStep adel.ACONT (U32 - 3) arWrapDemo).2 ≠ BranchOutcome.suspend := by
  refine ⟨by decide, by decide, by decide, by decide⟩

/-- C3, amended: the comparison of a stored deadline against the clock is
the plain unsigned less-than millis() < my(wait); it keeps the task
suspended exactly until the deadline only while my(wait) = n0 + t did not
wrap past 2^32 and the clock has not wrapped since n0. -/
theorem deadline_compare_no_wrap (n0 t n : Nat)
    (h1 : n0 + t < U32) (h2 : n < U32) :
    deadlineKeepsWaiting ((n0 + t) % U32) n = true ↔ n < n0 + t := by
  simp [deadlineKeepsWaiting, Nat.mod_eq_of_lt h1, Nat.mod_eq_of_lt h2]

/-- Witness for the amended C3 at concrete clock values. -/
theorem deadline_compare_no_wrap_witness :
    deadlineKeepsWaiting ((100 + 50) % U32) 120 = true ↔ 120 < 100 + 50 :=
  deadline_compare_no_wrap 100 50 120 (by decide) (by decide)

/-- C6, counterexample: adelay(0) executed with the clock at 100 for both
readings does not return ACONT: my(wait) becomes 100, the test
millis() < my(wait) is false, and the pass falls through (none), so the
code after the delay runs on the same pass. -/
theorem adelay_zero_counterexample :
    (adelayFirstPass 2480 0 100 100 arZero).2 ≠ some adel.ACONT ∧
    (adelayFirstPass 2480 0 100 100 arZero).2 = none := by
  refine ⟨by decide, by decide⟩

/-- C6, amended: adelay(0) does not suspend: whenever the u32 clock
reading at the test is at least the reading at the write of my(wait), the
pass that executes the delay falls through immediately, with the frame
holding the token and the deadline my(wait) = millis(). -/
theorem adelay_zero_falls_through (k n0 n1 : Nat) (ar : AdelAR)
    (h : n0 % U32 ≤ n1 % U32) :
    (adelayFirstPass k 0 n0 n1 ar).2 = none ∧
    (adelayFirstPass k 0 n0 n1 ar).1 = { ar with pc := k, wait := n0 % U32 } := by
  constructor
  · simp [adelayFirstPass, adelayEnter, adelayAtToken, deadlineKeepsWaiting]
    omega
  · simp [adelayFirstPass, adelayEnter]

/-- Witness for the amended C6 at a concrete clock value. -/
theorem adelay_zero_falls_through_witness :
    (adelayFirstPass 2480 0 100 100 arZero).2 = none :=
  (adelay_zero_falls_through 2480 100 100 arZero (by decide)).1

/-- C7, counterexample: on a deciding pass of aforatmost (child done, at
first-stage token 2960) the frame's pc stays 2960; it is not advanced to
the second-stage token 2961, even though the condition latch is recorded
and control falls into the branch stage. -/
theorem aforatmost_pc_counterexample :
    (aforatmostStep adel.ADONE 10 arForDemo).1.pc ≠ 2960 + 1 ∧
    (aforatmostStep adel.ADONE 10 arForDemo).1.pc = 2960 ∧
    (aforatmostStep adel.ADONE 10 arForDemo).1.condition = true ∧
    (aforatmostStep adel.ADONE 10 arForDemo).2 = BranchOutcome.branch false := by
  refine ⟨by decide, by decide, by decide, by decide⟩

/-- C7, amended: on the pass where f completes or the deadline has
passed, aforatmost records my(condition) = f_status.done() and falls
through into the second-stage if (guard: condition false, i.e. the
timeout fired); the frame's pc is left unchanged, so a re-entry of the
task at this combinator resumes at the first-stage token and re-evaluates
f; the second-stage label is only a fall-through target. -/
theorem aforatmost_decide_records_condition (fs : adel) (n : Nat) (ar : AdelAR)
    (h : (fs.notdone && deadlineKeepsWaiting ar.wait n) = false) :
    aforatmostStep fs n ar
      = ({ ar with condition := fs.done }, BranchOutcome.branch (!fs.done)) ∧
    (aforatmostStep fs n ar).1.pc = ar.pc := by
  constructor
  · simp [aforatmostStep, h]
  · simp [aforatmostStep, h]

/-- Witness for the amended C7: child done at clock 10, deadline 50. -/
theorem aforatmost_decide_records_condition_witness :
    aforatmostStep adel.ADONE 10 arForDemo
      = ({ arForDemo with condition := true }, BranchOutcome.branch false) :=
  (aforatmost_decide_records_condition adel.ADONE 10 arForDemo (by decide)).1

/-- C4. auntileither: on the first pass where at least one child is done,
the combinator records my(condition) = f_status.done(), advances pc to
the branch token k + 1, and the branch guard is the condition; in
particular when f and g complete on the same pass, f wins and the true
branch executes. -/
theorem auntileither_tiebreak (k : Nat) (fs gs : adel) (ar : AdelAR)
    (h : fs.done = true ∨ gs.done = true) :
    auntileitherStep k fs gs ar
      = ({ ar with condition := fs.done, pc := k + 1 },
         BranchOutcome.branch fs.done) ∧
    (fs.done = true →
      (auntileitherStep k fs gs ar).2 = BranchOutcome.branch true) := by
  have hnd : (fs.notdone && gs.notdone) = false := by
    rcases h with h | h <;>
      cases fs <;> cases gs <;>
        simp_all [adel.done, adel.notdone, adel.cont, adel.yield]
  constructor
  · simp [auntileitherStep, hnd]
  · intro hf
    simp [auntileitherStep, hnd, hf]

/-- Witness for C4: both children complete on the same pass; f wins. -/
theorem auntileither_tiebreak_witness :
    auntileitherStep 3520 adel.ADONE adel.ADONE arZero
      = ({ arZero with condition := true, pc := 3520 + 1 },
         BranchOutcome.branch true) :=
  (auntileither_tiebreak 3520 adel.ADONE adel.ADONE arZero (Or.inl rfl)).1

/-- C9. afinish sets the frame's pc to ADEL_FINALLY, changes nothing
else, and returns ACONT on this pass (the caller observes suspension,
not completion); the task's next entry falls straight through the
dispatcher to the epilogue and returns ADONE. -/
theorem afinish_suspends_then_done
    (cases : Nat → Option (AdelAR → AdelAR × adel)) (ar : AdelAR) :
    afinishStep ar = ({ ar with pc := ADEL_FINALLY }, adel.ACONT) ∧
    (afinishStep ar).2.done = false ∧
    (afinishStep ar).2.cont = true ∧
    runTask cases (afinishStep ar).1 = ((afinishStep ar).1, adel.ADONE) := by
  refine ⟨rfl, rfl, rfl, ?_⟩
  simp [afinishStep, runTask]

/-- C5. alternate: on entry the condition latch is set to true (f's
turn); at the token exactly the child whose turn it is runs — the peer's
state is untouched; the running child's ACONT is passed up as ACONT with
the turn unchanged, its AYIELD flips the turn and returns ACONT so the
peer runs on the next pass, and its ADONE falls through, terminating the
alternation as soon as either side completes. -/
theorem alternate_turn_semantics {σ τ : Type} (f : σ → σ × adel)
    (g : τ → τ × adel) (ar : AdelAR) (sf : σ) (sg : τ) :
    (∀ k myIndex : Nat, ∀ s : Stack,
      (alternateEnter k myIndex ar s).1.condition = true) ∧
    (ar.condition = true →
      ((alternateStep f g ar sf sg).1.2.2 = sg ∧
       ((f sf).2 = adel.ACONT →
         alternateStep f g ar sf sg = ((ar, (f sf).1, sg), some adel.ACONT)) ∧
       ((f sf).2 = adel.AYIELD →
         alternateStep f g ar sf sg
           = (({ ar with condition := false }, (f sf).1, sg), some adel.ACONT)) ∧
       ((f sf).2 = adel.ADONE →
         alternateStep f g ar sf sg = ((ar, (f sf).1, sg), none)))) ∧
    (ar.condition = false →
      ((alternateStep f g ar sf sg).1.2.1 = sf ∧
       ((g sg).2 = adel.ACONT →
         alternateStep f g ar sf sg = ((ar, sf, (g sg).1), some adel.ACONT)) ∧
       ((g sg).2 = adel.AYIELD →
         alternateStep f g ar sf sg
           = (({ ar with condition := true }, sf, (g sg).1), some adel.ACONT)) ∧
       ((g sg).2 = adel.ADONE →
         alternateStep f g ar sf sg = ((ar, sf, (g sg).1), none)))) := by
  refine ⟨fun k myIndex s => rfl, ?_, ?_⟩
  · intro h
    refine ⟨?_, ?_, ?_, ?_⟩
    · cases hst : (f sf).2 <;>
        simp [alternateStep, h, hst, adel.cont, adel.yield]
    · intro hst
      simp [alternateStep, h, hst, adel.cont, adel.yield]
    · intro hst
      simp [alternateStep, h, hst, adel.cont, adel.yield]
    · intro hst
      simp [alternateStep, h, hst, adel.cont, adel.yield]
  · intro h
    refine ⟨?_, ?_, ?_, ?_⟩
    · cases hst : (g sg).2 <;>
        simp [alternateStep, h, hst, adel.cont, adel.yield]
    · intro hst
      simp [alternateStep, h, hst, adel.cont, adel.yield]
    · intro hst
      simp [alternateStep, h, hst, adel.cont, adel.yield]
    · intro hst
      simp [alternateStep, h, hst, adel.cont, adel.yield]

/-- Witness for C5: f's turn, f yields; the turn flips, g's state 9 is
untouched, and the combinator returns ACONT. -/
theorem alternate_turn_semantics_witness :
    alternateStep altF altG arTurn 5 9
      = (({ arTurn with condition := false }, 6, 9), some adel.ACONT) :=
  ((alternate_turn_semantics altF altG arTurn 5 9).2.1 rfl).2.2.1 rfl

/-- C8, counterexample: under alternate at slot 0 with children at slots
1 and 2, the peer's ayourturn(42) from slot 1 leaves slot 2's own frame
val at 7, yet amyturn read at slot 2 returns 42: the value was not
deposited in the reading task's own frame. -/
theorem amyturn_not_own_frame :
    amyturnVal 2 (ayourturnStep 1 170 42 stackAltDemo).1 = some 42 ∧
    ((ayourturnStep 1 170 42 stackAltDemo).1 2).map AdelAR.val = some 7 ∧
    ¬ (amyturnVal 2 (ayourturnStep 1 170 42 stackAltDemo).1
        = ((ayourturnStep 1 170 42 stackAltDemo).1 2).map AdelAR.val) := by
  refine ⟨by decide, by decide, by decide⟩

/-- C8, amended: both children of a combinator at slot p (slots 2p+1 and
2p+2) resolve acallerar to the same slot p; ayourturn(v) from one child
deposits v in that common caller frame's val and returns AYIELD, and
amyturn read by the other child returns exactly that val from the caller
frame; every other slot is left unchanged, val being the only cross-frame
access. -/
theorem ayourturn_deposits_in_caller (p k v : Nat) (s : Stack) (ar0 : AdelAR)
    (h : s p = some ar0) :
    acallerIdx (2 * p + 1) = p ∧ acallerIdx (2 * p + 2) = p ∧
    (ayourturnStep (2 * p + 1) k v s).1 p = some { ar0 with val := v % U32 } ∧
    amyturnVal (2 * p + 2) (ayourturnStep (2 * p + 1) k v s).1
      = some (v % U32) ∧
    (ayourturnStep (2 * p + 1) k v s).2 = adel.AYIELD ∧
    ∀ j : Nat, j ≠ p → j ≠ 2 * p + 1 →
      (ayourturnStep (2 * p + 1) k v s).1 j = s j := by
  have h1 : acallerIdx (2 * p + 1) = p := by
    simp only [acallerIdx]
    omega
  have h2 : acallerIdx (2 * p + 2) = p := by
    simp only [acallerIdx]
    omega
  have hp : p ≠ 2 * p + 1 := by omega
  refine ⟨h1, h2, ?_, ?_, rfl, ?_⟩
  · simp [ayourturnStep, h1, hp, h]
  · simp [amyturnVal, ayourturnStep, h1, h2, hp, h]
  · intro j hjp hj1
    simp [ayourturnStep, h1, hjp, hj1]

/-- Witness for the amended C8: the value 42 yielded from slot 1 is read
back by amyturn at slot 2. -/
theorem ayourturn_deposits_in_caller_witness :
    amyturnVal (2 * 0 + 2) (ayourturnStep (2 * 0 + 1) 170 42 stackAltDemo).1
      = some (42 % U32) :=
  (ayourturn_deposits_in_caller 0 170 42 stackAltDemo arAltRoot rfl).2.2.2.1

/-- C2 (code defect witness trace). In aevery(T, f) the static anexttime
is set once to millis() + T at the site's first execution and never
written again: every pass leaves it unchanged.  Concretely with T = 100,
site first run at millis() = 0 (anexttime = 100): a pass at millis() =
101 on which f completes resets the root frame (pc becomes 0), and a
further pass at millis() = 102 on which f completes again resets it
again, only 1 ms later — the reference time is never advanced on
completion, so successive restarts are not separated by T milliseconds. -/
theorem aevery_reference_never_advances :
    everySt0.nexttime = 100 ∧ everySt1.nexttime = 100 ∧
    everySt2.nexttime = 100 ∧
    (everySt1.stack 0).map AdelAR.pc = some 0 ∧
    (everySt2.stack 0).map AdelAR.pc = some 0 ∧
    ∀ (f : Stack → Stack × adel) (n : Nat) (st : EveryState),
      (aeveryPass f n st).nexttime = st.nexttime := by
  refine ⟨rfl, rfl, rfl, by decide, by decide, ?_⟩
  intro f n st
  simp only [aeveryPass]
  split <;> rfl

end Adel
